import Mathlib

/-!
A shallow embedding of the two-level write-back / write-allocate cache
simulator from `src/main.cpp`, together with theorems settling the
specification's claims against it.

Machine integers (`unsigned long`, `int`) are modelled as `Nat` where the
program keeps them non-negative (addresses, way indices, counters) and as
`Int` where signedness is observable (the command-line configuration
values parsed by `atoi`).  An `access` call on one level is modelled as a
pure function returning the hit flag, the updated level state, and the
ordered list of (address, is_write) requests it issues downstream; the
hierarchy stepper routes those requests either into the next level's
`access` or into the memory sink (`handle_memory_read` /
`handle_memory_write`), exactly as the `next_level` pointer does in the
source.
-/

namespace CacheSim

/-- Mirrors `struct CacheBlock`: a line with a validity flag, a dirty flag
and a tag; a fresh line is invalid, clean, tag zero. -/
structure CacheBlock where
  valid : Bool
  dirty : Bool
  tag : Nat
deriving Repr, DecidableEq

/-- The default-constructed `CacheBlock()`. -/
def CacheBlock.initial : CacheBlock := ⟨false, false, 0⟩

/-- Mirrors the counter fields of `Cache::CacheStats`. -/
structure CacheStats where
  reads : Nat
  writes : Nat
  read_hits : Nat
  write_hits : Nat
  read_misses : Nat
  write_misses : Nat
  writebacks : Nat
deriving Repr, DecidableEq

/-- The default-constructed `CacheStats()` (all counters zero). -/
def CacheStats.initial : CacheStats := ⟨0, 0, 0, 0, 0, 0, 0⟩

/-- Mirrors the state of the `Cache` class: configuration, derived
parameters, the per-set block arrays, the per-set LRU lists (front = MRU,
back = LRU) and the statistics bundle.  The `next_level` pointer is not a
field here; it is modelled by the hierarchy stepper below, matching the
wiring done in `main`. -/
structure Cache where
  block_size : Nat
  size : Nat
  associativity : Nat
  num_sets : Nat
  num_blocks : Nat
  cache_sets : List (List CacheBlock)
  lru_lists : List (List Nat)
  stats : CacheStats
deriving Repr, DecidableEq

/-- Mirrors the `Cache` constructor: when enabled (`size > 0`) it derives
`num_blocks = size / block_size` and `num_sets = num_blocks /
associativity` and builds the storage exactly as `initialize_cache` does —
every block default-constructed, every LRU list `[0, 1, ..., assoc-1]`
(way 0 pushed first, so way `assoc-1` sits at the LRU end). -/
def initCache (bs s assoc : Nat) : Cache :=
  if 0 < s then
    { block_size := bs, size := s, associativity := assoc,
      num_sets := (s / bs) / assoc, num_blocks := s / bs,
      cache_sets := List.replicate ((s / bs) / assoc)
        (List.replicate assoc CacheBlock.initial),
      lru_lists := List.replicate ((s / bs) / assoc) (List.range assoc),
      stats := CacheStats.initial }
  else
    { block_size := bs, size := s, associativity := assoc,
      num_sets := 0, num_blocks := 0,
      cache_sets := [], lru_lists := [], stats := CacheStats.initial }

/-- Mirrors `Cache::update_lru`: `lru_list.remove(way)` (which removes all
occurrences) followed by `push_front(way)`. -/
def update_lru (l : List Nat) (way : Nat) : List Nat :=
  way :: l.filter (fun w => w != way)

/-- Mirrors `Cache::get_lru_victim`: the way at the back of the LRU list.
(The list is never empty on an enabled cache; the default 0 models the
same expression total.) -/
def get_lru_victim (l : List Nat) : Nat :=
  l.getLastD 0

/-- Mirrors the address decomposition at the top of `Cache::access`:
`block_addr = address / block_size`, `set_index = block_addr % num_sets`,
`tag = block_addr / num_sets`; returns `(set_index, tag)`. -/
def decompose (block_size num_sets address : Nat) : Nat × Nat :=
  ((address / block_size) % num_sets, (address / block_size) / num_sets)

/-- Mirrors the address reconstruction in `Cache::insert_block`:
`(tag * num_sets + set_index) * block_size`. -/
def reconstruct (block_size num_sets tag set_index : Nat) : Nat :=
  (tag * num_sets + set_index) * block_size

/-- Mirrors the lookup loop in `Cache::access`: scan ways `0, 1, ...` and
return the first way holding a valid line with the matching tag. -/
def find_hit_way : List CacheBlock → Nat → Option Nat
  | [], _ => none
  | b :: rest, tg =>
      if b.valid && b.tag == tg then some 0
      else (find_hit_way rest tg).map (· + 1)

/-- Write block `b` at way `i` of set `si`. -/
def setBlock (cs : List (List CacheBlock)) (si i : Nat) (b : CacheBlock) :
    List (List CacheBlock) :=
  cs.set si ((cs.getD si []).set i b)

/-- Mirrors `Cache::insert_block` (the two-step miss allocation).  Returns
the updated level together with the ordered downstream requests: the
write of the victim's reconstructed address when the victim is valid and
dirty, followed by the read of the requested reconstructed address.  The
caller routes these to the next level or to the memory sink, as the
`next_level` pointer does in the source. -/
def Cache.insert_block (c : Cache) (set_index tg : Nat) (is_write : Bool) :
    Cache × List (Nat × Bool) :=
  let victim_way := get_lru_victim (c.lru_lists.getD set_index [])
  let victim := (c.cache_sets.getD set_index []).getD victim_way CacheBlock.initial
  -- STEP 1: if the victim is valid and dirty, emit its writeback first,
  -- and clear the victim's state
  let wb : List (Nat × Bool) :=
    if victim.valid && victim.dirty then
      [(reconstruct c.block_size c.num_sets victim.tag set_index, true)]
    else []
  let cleared :=
    if victim.valid then
      setBlock c.cache_sets set_index victim_way ⟨false, false, 0⟩
    else c.cache_sets
  -- STEP 2: the fill read for the requested block follows the writeback;
  -- STEP 3: install `valid = true`, `tag`, `dirty = is_write` in the
  -- victim way; STEP 4: move the installed way to MRU
  ({ c with
      cache_sets := setBlock cleared set_index victim_way ⟨true, is_write, tg⟩,
      lru_lists := c.lru_lists.set set_index
        (update_lru (c.lru_lists.getD set_index []) victim_way) },
   wb ++ [(reconstruct c.block_size c.num_sets tg set_index, false)])

/-- Mirrors `Cache::access`: returns the hit flag, the updated level, and
the downstream requests issued (empty on a hit or on a disabled level). -/
def Cache.access (c : Cache) (address : Nat) (is_write : Bool) :
    Bool × Cache × List (Nat × Bool) :=
  if c.size = 0 then (false, c, [])
  else
    let si := (decompose c.block_size c.num_sets address).1
    let tg := (decompose c.block_size c.num_sets address).2
    let st := c.cache_sets.getD si []
    match find_hit_way st tg with
    | some i =>
        -- HIT: move the way to MRU, then mark it dirty on a write
        (true,
         { c with
            lru_lists := c.lru_lists.set si
              (update_lru (c.lru_lists.getD si []) i),
            cache_sets :=
              if is_write then
                setBlock c.cache_sets si i
                  { st.getD i CacheBlock.initial with dirty := true }
              else c.cache_sets },
         [])
    | none =>
        let r := c.insert_block si tg is_write
        (false, r.1, r.2)

/-- Mirrors the counter updates of `Cache::access_with_stats`. -/
def bumpStats (s : CacheStats) (is_write hit : Bool) : CacheStats :=
  if is_write then
    if hit then { s with writes := s.writes + 1, write_hits := s.write_hits + 1 }
    else { s with writes := s.writes + 1, write_misses := s.write_misses + 1 }
  else
    if hit then { s with reads := s.reads + 1, read_hits := s.read_hits + 1 }
    else { s with reads := s.reads + 1, read_misses := s.read_misses + 1 }

/-- Mirrors `Cache::access_with_stats`: perform the access, then update
the receiving level's counters from `is_write` and the hit flag. -/
def Cache.access_with_stats (c : Cache) (address : Nat) (is_write : Bool) :
    Bool × Cache × List (Nat × Bool) :=
  let r := c.access address is_write
  (r.1, { r.2.1 with stats := bumpStats r.2.1.stats is_write r.1 }, r.2.2)

/-- Routes a level's downstream requests into the memory sink, for a level
whose `next_level` is null: each write request is
`handle_memory_write` (which increments this level's `writebacks`
counter), each read request is `handle_memory_read` (no counter).  The two
extra naturals count the read and write operations the sink observed. -/
def applySink (c : Cache) (sr sw : Nat) (ops : List (Nat × Bool)) :
    Cache × Nat × Nat :=
  ops.foldl
    (fun acc op =>
      if op.2 then
        ({ acc.1 with stats :=
            { acc.1.stats with writebacks := acc.1.stats.writebacks + 1 } },
         acc.2.1, acc.2.2 + 1)
      else (acc.1, acc.2.1 + 1, acc.2.2))
    (c, sr, sw)

/-- One access arriving at the last enabled level (`next_level == nullptr`):
perform `access`, then route its downstream requests into the sink. -/
def stepLast (c : Cache) (sr sw : Nat) (address : Nat) (is_write : Bool) :
    Cache × Nat × Nat :=
  let r := c.access address is_write
  applySink r.2.1 sr sw r.2.2

/-- The state of the simulated hierarchy built by `main`: L1, L2 (enabled
iff its size is positive) and the ghost counters of read and write
operations observed by the memory sink. -/
structure Hier where
  l1 : Cache
  l2 : Cache
  sinkReads : Nat
  sinkWrites : Nat
deriving Repr, DecidableEq

/-- The hierarchy as wired by `main`: `Cache l1(bs, l1s, l1a)`,
`Cache l2(bs, l2s, l2a)`, with `l1.next = &l2` exactly when L2 is enabled. -/
def initHier (bs l1s l1a l2s l2a : Nat) : Hier :=
  { l1 := initCache bs l1s l1a, l2 := initCache bs l2s l2a,
    sinkReads := 0, sinkWrites := 0 }

/-- One trace reference, as issued by `process_trace_file`: L1's
`access_with_stats`, whose downstream requests go to L2's plain `access`
(not `access_with_stats`) when L2 is enabled, and to the sink otherwise;
L2's own downstream requests always go to the sink. -/
def Hier.step (h : Hier) (address : Nat) (is_write : Bool) : Hier :=
  let r := h.l1.access_with_stats address is_write
  if 0 < h.l2.size then
    let t := r.2.2.foldl
      (fun acc op => stepLast acc.1 acc.2.1 acc.2.2 op.1 op.2)
      (h.l2, h.sinkReads, h.sinkWrites)
    { l1 := r.2.1, l2 := t.1, sinkReads := t.2.1, sinkWrites := t.2.2 }
  else
    let t := applySink r.2.1 h.sinkReads h.sinkWrites r.2.2
    { l1 := t.1, l2 := h.l2, sinkReads := t.2.1, sinkWrites := t.2.2 }

/-- Runs a finite trace of `(address, is_write)` references through the
hierarchy, in order, as `process_trace_file` does. -/
def runTrace (h : Hier) (tr : List (Nat × Bool)) : Hier :=
  tr.foldl (fun h op => h.step op.1 op.2) h

/-- Folds a sequence of accesses through one level alone, ignoring its
downstream requests (used for per-level claims about the state machine). -/
def runLevel (c : Cache) (tr : List (Nat × Bool)) : Cache :=
  tr.foldl (fun c op => (c.access op.1 op.2).2.1) c

/-- Folds a sequence of accesses through one level alone, accumulating the
downstream requests it issues. -/
def runLevelOps (c : Cache) (tr : List (Nat × Bool)) :
    Cache × List (Nat × Bool) :=
  tr.foldl
    (fun acc op =>
      let r := acc.1.access op.1 op.2
      (r.2.1, acc.2 ++ r.2.2))
    (c, [])

/-- Mirrors `Cache::is_power_of_two`: `n > 0 && (n & (n - 1)) == 0`. -/
def is_power_of_two (n : Int) : Bool :=
  decide (0 < n) && ((n.toNat &&& (n.toNat - 1)) == 0)

/-- Mirrors `Cache::is_valid_configuration`.  The configuration values are
C++ `int`s parsed by `atoi`, so they live in `Int`; `num_blocks = size /
block_size` and `num_sets = num_blocks / associativity` are the values the
constructor derives, with C++ truncated division (`Int.tdiv`).  A disabled
level (`size <= 0`) is valid.  The checks are exactly the source's:
block size a power of two, number of sets a power of two, all three
parameters positive, associativity at most `num_blocks`, size divisible by
block size, and `num_blocks` divisible by associativity. -/
def is_valid_configuration (bs s assoc : Int) : Bool :=
  if s ≤ 0 then true
  else
    is_power_of_two bs &&
    is_power_of_two (Int.tdiv (Int.tdiv s bs) assoc) &&
    (decide (0 < bs) && decide (0 < s) && decide (0 < assoc)) &&
    decide (assoc ≤ Int.tdiv s bs) &&
    (Int.tmod s bs == 0) &&
    (Int.tmod (Int.tdiv s bs) assoc == 0)

/-- Mirrors the validation prefix of `main` followed by the simulation:
L1's and L2's configurations and then the prefetch knobs are checked, in
the source's order, before any trace processing; a violation makes the
program print a diagnostic on the error stream and exit with code 1,
producing no results block (`Except.error 1`).  Otherwise the trace is run
and the final hierarchy state (from which the results block is printed) is
produced.  Negative sizes disable a level in the source (`is_enabled` is
`size > 0`), which `Int.toNat` reproduces. -/
def runMain (bs l1s l1a l2s l2a prefN prefM : Int) (tr : List (Nat × Bool)) :
    Except Nat Hier :=
  if is_valid_configuration bs l1s l1a = true then
    if is_valid_configuration bs l2s l2a = true then
      if decide (prefN < 0) || decide (prefM < 0) ||
          (decide (0 < prefN) && (prefM == 0)) then
        Except.error 1
      else
        Except.ok (runTrace (initHier bs.toNat l1s.toNat l1a.toNat
          l2s.toNat l2a.toNat) tr)
    else Except.error 1
  else Except.error 1

/-- Mirrors `CacheStats::get_overall_miss_rate`: `(read_misses +
write_misses) / (reads + writes)` when `reads + writes > 0`, else 0.  The
real-valued division is modelled exactly over `ℚ`. -/
def get_overall_miss_rate (s : CacheStats) : ℚ :=
  if 0 < s.reads + s.writes then
    ((s.read_misses : ℚ) + (s.write_misses : ℚ)) /
      ((s.reads : ℚ) + (s.writes : ℚ))
  else 0

/-- Mirrors line `e.` of `print_simulation_results`: the reported L1 miss
rate is `l1_stats.get_overall_miss_rate()`. -/
def reported_l1_miss_rate (h : Hier) : ℚ :=
  get_overall_miss_rate h.l1.stats

/-- Mirrors line `n.` of `print_simulation_results`: with L2 enabled the
reported L2 miss rate is `l2_stats.read_misses / l2_stats.reads` (0 when
`reads == 0`); `0.000000` is printed when L2 is disabled. -/
def reported_l2_miss_rate (h : Hier) : ℚ :=
  if 0 < h.l2.size then
    if 0 < h.l2.stats.reads then
      (h.l2.stats.read_misses : ℚ) / (h.l2.stats.reads : ℚ)
    else 0
  else 0

/-- Mirrors line `q.` of `print_simulation_results`: the total memory
traffic, computed from the last enabled level's counters. -/
def total_memory_traffic (h : Hier) : Nat :=
  if 0 < h.l2.size then
    h.l2.stats.read_misses + h.l2.stats.write_misses + h.l2.stats.writebacks
  else
    h.l1.stats.read_misses + h.l1.stats.write_misses + h.l1.stats.writebacks

/-- Invariant: every LRU list is a permutation of the way indices
`{0, ..., associativity - 1}`. -/
def lru_perm_inv (c : Cache) : Prop :=
  ∀ l ∈ c.lru_lists, l.Perm (List.range c.associativity)

/-- Invariant: no line is simultaneously dirty and invalid. -/
def dirty_valid_inv (c : Cache) : Prop :=
  ∀ s ∈ c.cache_sets, ∀ b ∈ s, b.dirty = true → b.valid = true

/-- Invariant: every stored set holds exactly `associativity` ways. -/
def set_len_inv (c : Cache) : Prop :=
  ∀ s ∈ c.cache_sets, s.length = c.associativity

/-- The combined per-level well-formedness: positive associativity when
enabled, full-length sets, LRU permutations, and no dirty-invalid line. -/
def good_level (c : Cache) : Prop :=
  (¬ c.size = 0 → 0 < c.associativity) ∧
  set_len_inv c ∧ lru_perm_inv c ∧ dirty_valid_inv c

/-- The contents of a set after its first `ts.length` cold fills with tag
sequence `ts`: way `a - 1 - i` holds tag `ts[i]` (clean), ways below
`a - ts.length` are still invalid. -/
def coldSet (a : Nat) (ts : List Nat) : List CacheBlock :=
  (List.range a).map (fun w =>
    if a - ts.length ≤ w then ⟨true, false, ts.getD (a - 1 - w) 0⟩
    else CacheBlock.initial)

/-- The recency order of a set after its first `j` cold fills: the filled
ways `a - j, ..., a - 1` (MRU first), then the untouched ways
`0, ..., a - j - 1` ending at the LRU position. -/
def coldLru (a j : Nat) : List Nat :=
  List.range' (a - j) j ++ List.range (a - j)

/-- Observer: the set index `Cache::access` derives for an address. -/
def Cache.set_index_of (c : Cache) (a : Nat) : Nat :=
  (decompose c.block_size c.num_sets a).1

/-- Observer: the tag `Cache::access` derives for an address. -/
def Cache.tag_of (c : Cache) (a : Nat) : Nat :=
  (decompose c.block_size c.num_sets a).2

/-- Observer: the stored block array of set `si`. -/
def Cache.set_at (c : Cache) (si : Nat) : List CacheBlock :=
  c.cache_sets.getD si []

/-- Observer: the recency order of set `si` (front = MRU, back = LRU). -/
def Cache.lru_at (c : Cache) (si : Nat) : List Nat :=
  c.lru_lists.getD si []

/-- Observer: the way `get_lru_victim` picks for set `si`. -/
def Cache.victim_at (c : Cache) (si : Nat) : Nat :=
  get_lru_victim (c.lru_at si)

/-- Observer: the block stored at way `i` of set `si`. -/
def Cache.block_at (c : Cache) (si i : Nat) : CacheBlock :=
  (c.set_at si).getD i CacheBlock.initial

/-- The level state reached after the first `ts.length` cold fills of set
`si` (all other sets untouched). -/
def coldCache (bs s a si : Nat) (ts : List Nat) : Cache :=
  { initCache bs s a with
      cache_sets := (initCache bs s a).cache_sets.set si (coldSet a ts),
      lru_lists := (initCache bs s a).lru_lists.set si
        (coldLru a ts.length) }

/-! ### Helper lemmas about the list operations -/

lemma getLastD_mem (l : List Nat) (d : Nat) (h : l ≠ []) : l.getLastD d ∈ l := by
  induction l generalizing d with
  | nil => exact absurd rfl h
  | cons x xs ih =>
    cases xs with
    | nil => simp [List.getLastD]
    | cons y ys =>
      rw [List.getLastD_cons]
      exact List.mem_cons_of_mem x (ih x (by simp))

lemma update_lru_perm {l : List Nat} {n i : Nat}
    (hp : l.Perm (List.range n)) (hi : i ∈ l) :
    (update_lru l i).Perm (List.range n) := by
  have hnd : l.Nodup := hp.nodup_iff.mpr (List.nodup_range n)
  have herase : l.erase i = l.filter (fun w => w != i) :=
    List.Nodup.erase_eq_filter hnd i
  have : (i :: l.erase i).Perm l := (List.perm_cons_erase hi).symm
  rw [herase] at this
  exact this.trans hp

lemma update_lru_head (l : List Nat) (i : Nat) :
    (update_lru l i).head? = some i := rfl

lemma find_hit_way_some (st : List CacheBlock) (tg : Nat) {i : Nat}
    (h : find_hit_way st tg = some i) :
    i < st.length ∧ (st.getD i CacheBlock.initial).valid = true ∧
      (st.getD i CacheBlock.initial).tag = tg := by
  induction st generalizing i with
  | nil => simp [find_hit_way] at h
  | cons b rest ih =>
    by_cases hb : (b.valid && b.tag == tg) = true
    · rw [find_hit_way, if_pos hb] at h
      have hv : b.valid = true ∧ b.tag = tg := by simpa using hb
      cases h
      exact ⟨Nat.succ_pos _, by simpa [List.getD_cons_zero] using hv.1,
        by simpa [List.getD_cons_zero] using hv.2⟩
    · rw [find_hit_way, if_neg hb] at h
      obtain ⟨j, hj, rfl⟩ := Option.map_eq_some'.mp h
      obtain ⟨h1, h2, h3⟩ := ih hj
      exact ⟨Nat.succ_lt_succ h1, by simpa [List.getD_cons_succ] using h2,
        by simpa [List.getD_cons_succ] using h3⟩

lemma find_hit_way_none_iff (st : List CacheBlock) (tg : Nat) :
    find_hit_way st tg = none ↔
      ∀ b ∈ st, (b.valid && b.tag == tg) = false := by
  induction st with
  | nil => simp [find_hit_way]
  | cons b rest ih =>
    by_cases hb : (b.valid && b.tag == tg) = true
    · rw [find_hit_way, if_pos hb]
      simp only [List.mem_cons]
      constructor
      · intro h
        exact Option.noConfusion h
      · intro h
        have hfalse := h b (Or.inl rfl)
        rw [hb] at hfalse
        cases hfalse
    · rw [find_hit_way, if_neg hb]
      simp only [Option.map_eq_none', ih, List.mem_cons]
      constructor
      · intro h x hx
        rcases hx with rfl | hx
        · exact Bool.eq_false_iff.mpr hb
        · exact h x hx
      · intro h x hx
        exact h x (Or.inr hx)

/-! ### Unfolding lemmas for `Cache.access` -/

lemma access_disabled (c : Cache) (a : Nat) (w : Bool) (hsz : c.size = 0) :
    c.access a w = (false, c, []) := by
  unfold Cache.access
  rw [if_pos hsz]

lemma access_hit_eq (c : Cache) (a : Nat) (w : Bool) {i : Nat}
    (hsz : ¬ c.size = 0)
    (hf : find_hit_way
        (c.cache_sets.getD ((decompose c.block_size c.num_sets a).1) [])
        ((decompose c.block_size c.num_sets a).2) = some i) :
    c.access a w =
      (true,
       { c with
          lru_lists := c.lru_lists.set ((decompose c.block_size c.num_sets a).1)
            (update_lru
              (c.lru_lists.getD ((decompose c.block_size c.num_sets a).1) [])
              i),
          cache_sets :=
            if w then
              setBlock c.cache_sets ((decompose c.block_size c.num_sets a).1) i
                { (c.cache_sets.getD ((decompose c.block_size c.num_sets a).1)
                      []).getD i CacheBlock.initial with dirty := true }
            else c.cache_sets },
       []) := by
  unfold Cache.access
  rw [if_neg hsz]
  simp only [hf]

lemma access_miss_eq (c : Cache) (a : Nat) (w : Bool)
    (hsz : ¬ c.size = 0)
    (hf : find_hit_way
        (c.cache_sets.getD ((decompose c.block_size c.num_sets a).1) [])
        ((decompose c.block_size c.num_sets a).2) = none) :
    c.access a w =
      (false,
       (c.insert_block ((decompose c.block_size c.num_sets a).1)
          ((decompose c.block_size c.num_sets a).2) w).1,
       (c.insert_block ((decompose c.block_size c.num_sets a).1)
          ((decompose c.block_size c.num_sets a).2) w).2) := by
  unfold Cache.access
  rw [if_neg hsz]
  simp only [hf]

/-! ### Preservation of the configuration fields and of the statistics -/

lemma insert_block_config (c : Cache) (si tg : Nat) (w : Bool) :
    (c.insert_block si tg w).1.block_size = c.block_size ∧
    (c.insert_block si tg w).1.size = c.size ∧
    (c.insert_block si tg w).1.associativity = c.associativity ∧
    (c.insert_block si tg w).1.num_sets = c.num_sets ∧
    (c.insert_block si tg w).1.num_blocks = c.num_blocks ∧
    (c.insert_block si tg w).1.stats = c.stats := by
  unfold Cache.insert_block
  exact ⟨rfl, rfl, rfl, rfl, rfl, rfl⟩

lemma access_config (c : Cache) (a : Nat) (w : Bool) :
    ((c.access a w).2.1).block_size = c.block_size ∧
    ((c.access a w).2.1).size = c.size ∧
    ((c.access a w).2.1).associativity = c.associativity ∧
    ((c.access a w).2.1).num_sets = c.num_sets ∧
    ((c.access a w).2.1).num_blocks = c.num_blocks ∧
    ((c.access a w).2.1).stats = c.stats := by
  by_cases hsz : c.size = 0
  · rw [access_disabled c a w hsz]
    exact ⟨rfl, rfl, rfl, rfl, rfl, rfl⟩
  · cases hf : find_hit_way
        (c.cache_sets.getD ((decompose c.block_size c.num_sets a).1) [])
        ((decompose c.block_size c.num_sets a).2) with
    | some i =>
        rw [access_hit_eq c a w hsz hf]
        exact ⟨rfl, rfl, rfl, rfl, rfl, rfl⟩
    | none =>
        rw [access_miss_eq c a w hsz hf]
        exact insert_block_config c _ _ w

/-- `applySink` only increments this level's `writebacks` (once per write
request) and the sink's ghost counters; everything else is untouched. -/
lemma applySink_eq (c : Cache) (sr sw : Nat) (ops : List (Nat × Bool)) :
    applySink c sr sw ops =
      ({ c with stats := { c.stats with writebacks :=
          c.stats.writebacks + ops.countP (fun op => op.2) } },
       sr + ops.countP (fun op => !op.2),
       sw + ops.countP (fun op => op.2)) := by
  induction ops generalizing c sr sw with
  | nil => simp [applySink, List.countP_nil]
  | cons op rest ih =>
    unfold applySink
    rw [List.foldl_cons]
    by_cases hw : op.2 = true
    · rw [if_pos hw]
      show applySink { c with stats := { c.stats with writebacks :=
          c.stats.writebacks + 1 } } sr (sw + 1) rest = _
      rw [ih]
      simp [List.countP_cons, hw, Nat.add_comm, Nat.add_assoc,
        Nat.add_left_comm]
    · rw [if_neg hw]
      have hw' : op.2 = false := Bool.eq_false_iff.mpr hw
      show applySink c (sr + 1) sw rest = _
      rw [ih]
      simp [List.countP_cons, hw', Nat.add_comm, Nat.add_assoc,
        Nat.add_left_comm]

/-! ### Address arithmetic -/

lemma decompose_reconstruct (bs ns tg si : Nat) (hbs : 0 < bs)
    (hsi : si < ns) :
    decompose bs ns (reconstruct bs ns tg si) = (si, tg) := by
  unfold decompose reconstruct
  have hns : 0 < ns := Nat.lt_of_le_of_lt (Nat.zero_le si) hsi
  have h1 : (tg * ns + si) * bs / bs = tg * ns + si := Nat.mul_div_cancel _ hbs
  have h2 : (tg * ns + si) % ns = si := by
    rw [Nat.mul_comm, Nat.mul_add_mod, Nat.mod_eq_of_lt hsi]
  have h3 : (tg * ns + si) / ns = tg := by
    rw [Nat.mul_comm, Nat.mul_add_div hns, Nat.div_eq_of_lt hsi, Nat.add_zero]
  rw [h1, h2, h3]

/-! ### Configuration validation -/

lemma valid_config_props {bs s assoc : Int} (hpos : 0 < s)
    (hv : is_valid_configuration bs s assoc = true) :
    is_power_of_two bs = true ∧
    is_power_of_two (Int.tdiv (Int.tdiv s bs) assoc) = true ∧
    0 < bs ∧ 0 < assoc ∧ assoc ≤ Int.tdiv s bs ∧
    Int.tmod s bs = 0 ∧ Int.tmod (Int.tdiv s bs) assoc = 0 := by
  rw [is_valid_configuration, if_neg (not_le.mpr hpos)] at hv
  simp only [Bool.and_eq_true, decide_eq_true_eq, beq_iff_eq] at hv
  tauto

/-- Claim C10: address reconstruction is a right inverse of address
decomposition.  For every block size `bs ≥ 1` and any tag and set index
with `si < ns`, decomposing the reconstructed address
`(tg * ns + si) * bs` yields back exactly set index `si` and tag `tg`;
hence every writeback and fill address a level issues downstream denotes
precisely the victim's or the requested block. -/
theorem claim_C10_reconstruct_right_inverse (bs ns tg si : Nat)
    (hbs : 1 ≤ bs) (hsi : si < ns) :
    decompose bs ns (reconstruct bs ns tg si) = (si, tg) :=
  decompose_reconstruct bs ns tg si hbs hsi

theorem claim_C10_witness :
    decompose 16 4 (reconstruct 16 4 7 3) = (3, 7) :=
  claim_C10_reconstruct_right_inverse 16 4 7 3 (by decide) (by decide)

/-- Claim C9: any configuration of an enabled level that violates one of
the rules — block size a positive power of two, size divisible by block
size, associativity positive and at most the number of blocks, number of
sets a power of two — is rejected before any trace processing: the
program exits with code 1 and produces no results block. -/
theorem claim_C9_invalid_config_rejected
    (bs l1s l1a l2s l2a prefN prefM : Int) (tr : List (Nat × Bool))
    (hviol :
      (0 < l1s ∧ (is_power_of_two bs = false ∨ ¬ Int.tmod l1s bs = 0 ∨
        l1a ≤ 0 ∨ Int.tdiv l1s bs < l1a ∨
        is_power_of_two (Int.tdiv (Int.tdiv l1s bs) l1a) = false)) ∨
      (0 < l2s ∧ (is_power_of_two bs = false ∨ ¬ Int.tmod l2s bs = 0 ∨
        l2a ≤ 0 ∨ Int.tdiv l2s bs < l2a ∨
        is_power_of_two (Int.tdiv (Int.tdiv l2s bs) l2a) = false))) :
    runMain bs l1s l1a l2s l2a prefN prefM tr = Except.error 1 := by
  by_cases hv1 : is_valid_configuration bs l1s l1a = true
  · by_cases hv2 : is_valid_configuration bs l2s l2a = true
    · exfalso
      rcases hviol with ⟨hpos, hcase⟩ | ⟨hpos, hcase⟩
      · obtain ⟨p1, p2, p3, p4, p5, p6, p7⟩ := valid_config_props hpos hv1
        rcases hcase with h | h | h | h | h
        · rw [p1] at h; cases h
        · exact h p6
        · omega
        · omega
        · rw [p2] at h; cases h
      · obtain ⟨p1, p2, p3, p4, p5, p6, p7⟩ := valid_config_props hpos hv2
        rcases hcase with h | h | h | h | h
        · rw [p1] at h; cases h
        · exact h p6
        · omega
        · omega
        · rw [p2] at h; cases h
    · rw [runMain, if_pos hv1, if_neg hv2]
  · rw [runMain, if_neg hv1]

theorem claim_C9_witness :
    runMain 12 1024 2 0 0 0 0 [] = Except.error 1 :=
  claim_C9_invalid_config_rejected 12 1024 2 0 0 0 0 []
    (Or.inl ⟨by decide, Or.inl (by decide)⟩)

/-! ### More helpers: reading back an installed block -/

lemma getD_setBlock_self (cs : List (List CacheBlock)) (si i : Nat)
    (b : CacheBlock) (hsi : si < cs.length) :
    (setBlock cs si i b).getD si [] = (cs.getD si []).set i b := by
  unfold setBlock
  rw [List.getD_eq_getElem _ _ (by simpa using hsi),
    List.getElem_set_self (by simpa using hsi)]

lemma getD_set_self (l : List CacheBlock) (i : Nat) (b : CacheBlock)
    (hi : i < l.length) :
    (l.set i b).getD i CacheBlock.initial = b := by
  rw [List.getD_eq_getElem _ _ (by simpa using hi),
    List.getElem_set_self (by simpa using hi)]

lemma getD_setBlock (cs : List (List CacheBlock)) (si i : Nat)
    (b : CacheBlock) (hsi : si < cs.length)
    (hi : i < (cs.getD si []).length) :
    ((setBlock cs si i b).getD si []).getD i CacheBlock.initial = b := by
  rw [getD_setBlock_self cs si i b hsi, getD_set_self _ i b hi]

/-- On a miss, `insert_block` writes `valid = true`, `tag`, `dirty =
is_write` into the victim way. -/
lemma insert_block_installs (c : Cache) (si tg : Nat) (w : Bool)
    (hsi : si < c.cache_sets.length)
    (hv : get_lru_victim (c.lru_lists.getD si []) <
      (c.cache_sets.getD si []).length) :
    ((c.insert_block si tg w).1.cache_sets.getD si []).getD
        (get_lru_victim (c.lru_lists.getD si [])) CacheBlock.initial =
      ⟨true, w, tg⟩ := by
  unfold Cache.insert_block
  dsimp only
  by_cases hval :
      ((c.cache_sets.getD si []).getD (get_lru_victim (c.lru_lists.getD si []))
        CacheBlock.initial).valid = true
  · rw [if_pos hval]
    refine getD_setBlock _ si _ _ ?_ ?_
    · simpa [setBlock, List.length_set] using hsi
    · rw [getD_setBlock_self _ si _ _ hsi]
      simpa [List.length_set] using hv
  · rw [if_neg hval]
    exact getD_setBlock _ si _ _ hsi hv

/-! ### Claims C1 and C2: the statistics of induced accesses -/

/-- Claim C1, evaluated at the failing input `BLOCKSIZE=16 L1=32/2-way
L2=64/2-way`, trace `r 0`: the L1 miss issues a fill read to L2, and that
request reaches the memory sink through L2's own miss handling (the sink
observes one read), yet L2's `reads` and `writes` counters remain 0 —
`next_level->access` bypasses `access_with_stats`, so an induced access on
L2 increments neither of {reads, writes}, contradicting the claim.  L1's
own (trace-driver) access is counted. -/
theorem claim_C1_induced_access_not_counted :
    (runTrace (initHier 16 32 2 64 2) [(0, false)]).l2.stats.reads = 0 ∧
    (runTrace (initHier 16 32 2 64 2) [(0, false)]).l2.stats.writes = 0 ∧
    (runTrace (initHier 16 32 2 64 2) [(0, false)]).l2.stats.read_misses = 0 ∧
    (runTrace (initHier 16 32 2 64 2) [(0, false)]).sinkReads = 1 ∧
    (runTrace (initHier 16 32 2 64 2) [(0, false)]).l1.stats.reads = 1 ∧
    (runTrace (initHier 16 32 2 64 2) [(0, false)]).l1.stats.read_misses = 1 := by
  decide

/-- Claim C2, evaluated at the failing input `BLOCKSIZE=16 L1=32/2-way
L2=64/2-way`, trace `r 0`: the reported total memory traffic is
`l2.read_misses + l2.write_misses + l2.writebacks = 0`, but the memory
sink observed one operation (the fill read L2 forwarded), so the reported
traffic does not equal the number of operations the sink observed. -/
theorem claim_C2_traffic_cross_check_fails :
    total_memory_traffic (runTrace (initHier 16 32 2 64 2) [(0, false)]) = 0 ∧
    (runTrace (initHier 16 32 2 64 2) [(0, false)]).sinkReads +
      (runTrace (initHier 16 32 2 64 2) [(0, false)]).sinkWrites = 1 := by
  decide

/-! ### Claim C5: the hit path -/

/-- Claim C5: for every access on an enabled level whose set contains a
valid line with the matching tag (way `i`, the first match of the lookup
scan), the access returns true, moves that way to the MRU position of the
recency order, sets its dirty flag when `is_write` is true (leaving valid
and tag unchanged), leaves the block array entirely unchanged on a read
hit (so a clean read hit never clears dirty), and issues no request to the
next level. -/
theorem claim_C5_hit_behavior (c : Cache) (a : Nat) (w : Bool) (i : Nat)
    (hsz : ¬ c.size = 0)
    (hf : find_hit_way (c.set_at (c.set_index_of a)) (c.tag_of a) = some i) :
    (c.access a w).1 = true ∧
    (c.access a w).2.2 = [] ∧
    (c.access a w).2.1.lru_lists =
      c.lru_lists.set (c.set_index_of a)
        (update_lru (c.lru_at (c.set_index_of a)) i) ∧
    (update_lru (c.lru_at (c.set_index_of a)) i).head? = some i ∧
    (w = true →
      (c.access a w).2.1.cache_sets =
        setBlock c.cache_sets (c.set_index_of a) i
          { c.block_at (c.set_index_of a) i with dirty := true } ∧
      (c.block_at (c.set_index_of a) i).valid = true ∧
      (c.block_at (c.set_index_of a) i).tag = c.tag_of a) ∧
    (w = false → (c.access a w).2.1.cache_sets = c.cache_sets) := by
  rw [access_hit_eq c a w hsz hf]
  refine ⟨rfl, rfl, rfl, rfl, ?_, ?_⟩
  · intro hw
    subst hw
    exact ⟨rfl, (find_hit_way_some _ _ hf).2.1, (find_hit_way_some _ _ hf).2.2⟩
  · intro hw
    subst hw
    rfl

theorem claim_C5_witness :
    (((runTrace (initHier 16 32 2 0 0) [(0, false)]).l1.access 0 false).1
        = true) ∧
    (((runTrace (initHier 16 32 2 0 0) [(0, false)]).l1.access 0 false).2.2
        = []) :=
  ⟨(claim_C5_hit_behavior _ 0 false 1 (by decide) (by decide)).1,
   (claim_C5_hit_behavior _ 0 false 1 (by decide) (by decide)).2.1⟩

/-! ### Claim C4: the miss path -/

/-- Claim C4: on every miss in an enabled level, the victim is the way at
the LRU end of the set's recency order; the downstream request list is
the writeback of the valid-and-dirty victim (address
`(victim_tag * num_sets + set_index) * block_size`, as a write) — present
exactly when the victim is valid and dirty — followed by the fill read of
address `(tag * num_sets + set_index) * block_size`; the victim way is
then installed with `valid = true`, the requested tag, `dirty =
is_write`, and moved to MRU; the access returns false. -/
theorem claim_C4_miss_behavior (c : Cache) (a : Nat) (w : Bool)
    (hsz : ¬ c.size = 0)
    (hf : find_hit_way (c.set_at (c.set_index_of a)) (c.tag_of a) = none)
    (hsi : c.set_index_of a < c.cache_sets.length)
    (hv : c.victim_at (c.set_index_of a) <
      (c.set_at (c.set_index_of a)).length) :
    (c.access a w).1 = false ∧
    (c.access a w).2.2 =
      (if (c.block_at (c.set_index_of a)
              (c.victim_at (c.set_index_of a))).valid &&
          (c.block_at (c.set_index_of a)
              (c.victim_at (c.set_index_of a))).dirty then
        [(reconstruct c.block_size c.num_sets
            (c.block_at (c.set_index_of a)
              (c.victim_at (c.set_index_of a))).tag
            (c.set_index_of a), true)]
      else []) ++
      [(reconstruct c.block_size c.num_sets (c.tag_of a)
          (c.set_index_of a), false)] ∧
    (c.access a w).2.1.block_at (c.set_index_of a)
        (c.victim_at (c.set_index_of a)) = ⟨true, w, c.tag_of a⟩ ∧
    (c.access a w).2.1.lru_lists =
      c.lru_lists.set (c.set_index_of a)
        (update_lru (c.lru_at (c.set_index_of a))
          (c.victim_at (c.set_index_of a))) ∧
    (update_lru (c.lru_at (c.set_index_of a))
        (c.victim_at (c.set_index_of a))).head? =
      some (c.victim_at (c.set_index_of a)) := by
  rw [access_miss_eq c a w hsz hf]
  refine ⟨rfl, rfl, ?_, rfl, rfl⟩
  exact insert_block_installs c _ _ w hsi hv

theorem claim_C4_witness :
    ((initCache 16 32 2).access 0 true).1 = false ∧
    ((initCache 16 32 2).access 0 true).2.1.block_at 0 1 =
      ⟨true, true, 0⟩ :=
  ⟨(claim_C4_miss_behavior (initCache 16 32 2) 0 true (by decide) (by decide)
      (by decide) (by decide)).1,
   (claim_C4_miss_behavior (initCache 16 32 2) 0 true (by decide) (by decide)
      (by decide) (by decide)).2.2.1⟩

/-! ### Claim C6: the writeback counter -/

lemma bumpStats_writebacks (s : CacheStats) (w hit : Bool) :
    (bumpStats s w hit).writebacks = s.writebacks := by
  cases w <;> cases hit <;> rfl

lemma access_ops_write_count (c : Cache) (a : Nat) (w : Bool)
    (hsz : ¬ c.size = 0)
    (hf : find_hit_way (c.set_at (c.set_index_of a)) (c.tag_of a) = none) :
    (c.access a w).2.2.countP (fun op => op.2) =
      (if (c.block_at (c.set_index_of a)
              (c.victim_at (c.set_index_of a))).valid &&
          (c.block_at (c.set_index_of a)
              (c.victim_at (c.set_index_of a))).dirty
       then 1 else 0) := by
  rw [access_miss_eq c a w hsz hf]
  show ((c.insert_block (c.set_index_of a) (c.tag_of a) w).2).countP _ = _
  simp only [Cache.block_at, Cache.set_at, Cache.victim_at, Cache.lru_at]
  unfold Cache.insert_block
  dsimp only
  split
  · rfl
  · rfl

/-- Claim C6: a level's `writebacks` counter, at a level with no next
level (the memory sink case), increments by exactly one on a miss whose
victim is valid and dirty and stays unchanged otherwise (in particular on
every hit); when the level has a next level (L1 with L2 enabled), a full
hierarchy step never changes that level's `writebacks`, the dirty victim
instead appearing as exactly one write request issued downstream. -/
theorem claim_C6_writeback_counter :
    (∀ (c : Cache) (sr sw a : Nat) (w : Bool),
      ¬ c.size = 0 →
      find_hit_way (c.set_at (c.set_index_of a)) (c.tag_of a) = none →
      (stepLast c sr sw a w).1.stats.writebacks =
        c.stats.writebacks +
          (if (c.block_at (c.set_index_of a)
                  (c.victim_at (c.set_index_of a))).valid &&
              (c.block_at (c.set_index_of a)
                  (c.victim_at (c.set_index_of a))).dirty
           then 1 else 0)) ∧
    (∀ (c : Cache) (sr sw a : Nat) (w : Bool) (i : Nat),
      ¬ c.size = 0 →
      find_hit_way (c.set_at (c.set_index_of a)) (c.tag_of a) = some i →
      (stepLast c sr sw a w).1.stats.writebacks = c.stats.writebacks) ∧
    (∀ (h : Hier) (a : Nat) (w : Bool),
      0 < h.l2.size →
      (h.step a w).l1.stats.writebacks = h.l1.stats.writebacks) ∧
    (∀ (c : Cache) (a : Nat) (w : Bool),
      ¬ c.size = 0 →
      find_hit_way (c.set_at (c.set_index_of a)) (c.tag_of a) = none →
      (c.access a w).2.2.countP (fun op => op.2) =
        (if (c.block_at (c.set_index_of a)
                (c.victim_at (c.set_index_of a))).valid &&
            (c.block_at (c.set_index_of a)
                (c.victim_at (c.set_index_of a))).dirty
         then 1 else 0)) := by
  refine ⟨?_, ?_, ?_, ?_⟩
  · intro c sr sw a w hsz hf
    unfold stepLast
    dsimp only
    rw [applySink_eq]
    dsimp only
    rw [(access_config c a w).2.2.2.2.2, access_ops_write_count c a w hsz hf]
  · intro c sr sw a w i hsz hf
    unfold stepLast
    dsimp only
    rw [applySink_eq]
    dsimp only
    rw [(access_config c a w).2.2.2.2.2]
    rw [access_hit_eq c a w hsz hf]
    simp [List.countP_nil]
  · intro h a w hl2
    unfold Hier.step
    dsimp only
    rw [if_pos hl2]
    dsimp only
    unfold Cache.access_with_stats
    dsimp only
    rw [bumpStats_writebacks]
    exact (access_config h.l1 a w).2.2.2.2.2 ▸ rfl
  · intro c a w hsz hf
    exact access_ops_write_count c a w hsz hf

theorem claim_C6_witness :
    (stepLast (runLevel (initCache 16 32 2) [(0, true), (16, true)]) 0 0 32
        false).1.stats.writebacks =
      (runLevel (initCache 16 32 2) [(0, true), (16, true)]).stats.writebacks
        + 1 := by
  have h := (claim_C6_writeback_counter).1
    (runLevel (initCache 16 32 2) [(0, true), (16, true)]) 0 0 32 false
    (by decide) (by decide)
  exact h.trans (by decide)

/-! ### Claim C8: the reported miss rates -/

/-- Claim C8 counterexample: take an L2-enabled hierarchy whose L2
counters are `reads = 1`, `read_misses = 1`, `writes = 1`,
`write_misses = 0`.  The claimed formula `(read_misses + write_misses) /
(reads + writes)` gives `1/2`, but line `n.` (which the source computes as
`read_misses / reads`) reports `1`: the reported L2 miss rate does not
follow the overall-miss-rate formula. -/
theorem claim_C8_counterexample :
    reported_l2_miss_rate
        ⟨initCache 16 32 2,
         { initCache 16 64 2 with stats := ⟨1, 1, 0, 0, 1, 0, 0⟩ }, 0, 0⟩
      = 1 ∧
    get_overall_miss_rate
        ({ initCache 16 64 2 with
            stats := ⟨1, 1, 0, 0, 1, 0, 0⟩ } : Cache).stats
      = 1 / 2 ∧
    (1 : ℚ) ≠ 1 / 2 := by
  refine ⟨?_, ?_, by norm_num⟩
  · norm_num [reported_l2_miss_rate, initCache]
  · norm_num [get_overall_miss_rate, initCache]

/-- Claim C8 (amended): `get_overall_miss_rate` is the exact ratio
`(read_misses + write_misses) / (reads + writes)`, equal to 0 when the
denominator is 0, and line `e.` reports it for L1; line `n.`, however,
reports the L2 demand read miss rate `read_misses / reads` (0 when
`reads = 0`), and 0 when L2 is disabled. -/
theorem claim_C8_miss_rate_formulas (s : CacheStats) (h : Hier) :
    (0 < s.reads + s.writes →
      get_overall_miss_rate s * ((s.reads : ℚ) + (s.writes : ℚ)) =
        (s.read_misses : ℚ) + (s.write_misses : ℚ)) ∧
    (s.reads + s.writes = 0 → get_overall_miss_rate s = 0) ∧
    reported_l1_miss_rate h = get_overall_miss_rate h.l1.stats ∧
    (0 < h.l2.size → 0 < h.l2.stats.reads →
      reported_l2_miss_rate h * (h.l2.stats.reads : ℚ) =
        (h.l2.stats.read_misses : ℚ)) ∧
    (0 < h.l2.size → h.l2.stats.reads = 0 → reported_l2_miss_rate h = 0) ∧
    (h.l2.size = 0 → reported_l2_miss_rate h = 0) := by
  refine ⟨?_, ?_, rfl, ?_, ?_, ?_⟩
  · intro hpos
    have hne : ((s.reads : ℚ) + (s.writes : ℚ)) ≠ 0 := by
      have hq : (0 : ℚ) < (s.reads : ℚ) + (s.writes : ℚ) := by
        exact_mod_cast hpos
      exact ne_of_gt hq
    rw [get_overall_miss_rate, if_pos hpos, div_mul_cancel₀ _ hne]
  · intro h0
    rw [get_overall_miss_rate, if_neg (by omega)]
  · intro hl2 hr
    have hne : ((h.l2.stats.reads : ℚ)) ≠ 0 := by
      have hq : (0 : ℚ) < (h.l2.stats.reads : ℚ) := by exact_mod_cast hr
      exact ne_of_gt hq
    rw [reported_l2_miss_rate, if_pos hl2, if_pos hr,
      div_mul_cancel₀ _ hne]
  · intro hl2 hr0
    rw [reported_l2_miss_rate, if_pos hl2, if_neg (by omega)]
  · intro h0
    rw [reported_l2_miss_rate, if_neg (by omega)]

theorem claim_C8_witness :
    get_overall_miss_rate ⟨1, 1, 0, 0, 1, 0, 0⟩ *
        (((1 : Nat) : ℚ) + ((1 : Nat) : ℚ)) =
      ((1 : Nat) : ℚ) + ((0 : Nat) : ℚ) :=
  (claim_C8_miss_rate_formulas ⟨1, 1, 0, 0, 1, 0, 0⟩
      ⟨initCache 16 32 2, initCache 16 0 2, 0, 0⟩).1 (by decide)

/-! ### Claim C7: structural invariants through every access -/

lemma mem_set_cases {α : Type} {ls : List α} {si : Nat} {x y : α}
    (h : y ∈ ls.set si x) : y ∈ ls ∨ (si < ls.length ∧ y = x) := by
  by_cases hsi : si < ls.length
  · rcases List.mem_or_eq_of_mem_set h with h' | h'
    · exact Or.inl h'
    · exact Or.inr ⟨hsi, h'⟩
  · rw [List.set_eq_of_length_le (Nat.le_of_not_lt hsi)] at h
    exact Or.inl h

lemma getD_mem {α : Type} (ls : List α) (si : Nat) (d : α)
    (h : si < ls.length) : ls.getD si d ∈ ls := by
  rw [List.getD_eq_getElem _ _ h]
  exact List.getElem_mem h

lemma set_len_setBlock {cs : List (List CacheBlock)} {assoc si i : Nat}
    {b : CacheBlock} (h1 : ∀ s ∈ cs, s.length = assoc) :
    ∀ s ∈ setBlock cs si i b, s.length = assoc := by
  intro s hs
  rcases mem_set_cases hs with h | ⟨hsi, rfl⟩
  · exact h1 s h
  · rw [List.length_set]
    exact h1 _ (getD_mem cs si [] hsi)

lemma dirty_setBlock {cs : List (List CacheBlock)} {si i : Nat}
    {b : CacheBlock}
    (h3 : ∀ s ∈ cs, ∀ bl ∈ s, bl.dirty = true → bl.valid = true)
    (hb : b.dirty = true → b.valid = true) :
    ∀ s ∈ setBlock cs si i b, ∀ bl ∈ s,
      bl.dirty = true → bl.valid = true := by
  intro s hs bl hbl
  rcases mem_set_cases hs with h | ⟨hsi, rfl⟩
  · exact h3 s h bl hbl
  · rcases List.mem_or_eq_of_mem_set hbl with h' | rfl
    · exact h3 _ (getD_mem cs si [] hsi) bl h'
    · exact hb

lemma lru_set_perm {ls : List (List Nat)} {assoc si : Nat} {x : List Nat}
    (h2 : ∀ l ∈ ls, l.Perm (List.range assoc))
    (hx : si < ls.length → x.Perm (List.range assoc)) :
    ∀ l ∈ ls.set si x, l.Perm (List.range assoc) := by
  intro l hl
  rcases mem_set_cases hl with h | ⟨hsi, rfl⟩
  · exact h2 l h
  · exact hx hsi

/-- One `access` preserves the per-level well-formedness. -/
lemma good_level_access (c : Cache) (a : Nat) (w : Bool)
    (hg : good_level c) : good_level ((c.access a w).2.1) := by
  obtain ⟨hA, h1, h2, h3⟩ := hg
  by_cases hsz : c.size = 0
  · rw [access_disabled c a w hsz]
    exact ⟨hA, h1, h2, h3⟩
  cases hf : find_hit_way
      (c.cache_sets.getD ((decompose c.block_size c.num_sets a).1) [])
      ((decompose c.block_size c.num_sets a).2) with
  | some i =>
    rw [access_hit_eq c a w hsz hf]
    obtain ⟨hilt, hval, htag⟩ := find_hit_way_some _ _ hf
    have hsi : (decompose c.block_size c.num_sets a).1 <
        c.cache_sets.length := by
      by_contra hge
      rw [List.getD_eq_default _ _ (Nat.le_of_not_lt hge)] at hilt
      simp at hilt
    have hia : i < c.associativity := by
      rw [← h1 _ (getD_mem c.cache_sets _ [] hsi)]
      exact hilt
    refine ⟨hA, ?_, ?_, ?_⟩
    · intro s hs
      cases w with
      | false => exact h1 s hs
      | true => exact set_len_setBlock h1 s hs
    · intro l hl
      refine lru_set_perm h2 (fun hlt => ?_) l hl
      refine update_lru_perm (h2 _ (getD_mem c.lru_lists _ [] hlt)) ?_
      have := (h2 _ (getD_mem c.lru_lists _ [] hlt)).mem_iff
        (a := i)
      rw [this, List.mem_range]
      exact hia
    · intro s hs bl hbl
      cases w with
      | false => exact h3 s hs bl hbl
      | true =>
        refine dirty_setBlock h3 (fun _ => ?_) s hs bl hbl
        exact hval
  | none =>
    rw [access_miss_eq c a w hsz hf]
    unfold Cache.insert_block
    dsimp only
    refine ⟨hA, ?_, ?_, ?_⟩
    · intro s hs
      refine set_len_setBlock ?_ s hs
      by_cases hvv : ((c.cache_sets.getD
          ((decompose c.block_size c.num_sets a).1) []).getD
            (get_lru_victim (c.lru_lists.getD
              ((decompose c.block_size c.num_sets a).1) []))
            CacheBlock.initial).valid = true
      · rw [if_pos hvv]
        exact set_len_setBlock h1
      · rw [if_neg hvv]
        exact h1
    · intro l hl
      refine lru_set_perm h2 (fun hlt => ?_) l hl
      have hperm := h2 _ (getD_mem c.lru_lists _ [] hlt)
      have hlen : (c.lru_lists.getD
          ((decompose c.block_size c.num_sets a).1) []).length =
          c.associativity := by
        rw [hperm.length_eq, List.length_range]
      have hne : (c.lru_lists.getD
          ((decompose c.block_size c.num_sets a).1) []) ≠ [] := by
        intro hcontra
        rw [hcontra] at hlen
        have := hA hsz
        simp at hlen
        omega
      refine update_lru_perm hperm ?_
      exact getLastD_mem _ 0 hne
    · intro s hs bl hbl
      refine dirty_setBlock ?_ (fun _ => rfl) s hs bl hbl
      by_cases hvv : ((c.cache_sets.getD
          ((decompose c.block_size c.num_sets a).1) []).getD
            (get_lru_victim (c.lru_lists.getD
              ((decompose c.block_size c.num_sets a).1) []))
            CacheBlock.initial).valid = true
      · rw [if_pos hvv]
        refine dirty_setBlock h3 (fun hfd => ?_)
        cases hfd
      · rw [if_neg hvv]
        exact h3

lemma good_level_applySink (c : Cache) (sr sw : Nat)
    (ops : List (Nat × Bool)) (hg : good_level c) :
    good_level (applySink c sr sw ops).1 := by
  rw [applySink_eq]
  exact hg

lemma good_level_stepLast (c : Cache) (sr sw a : Nat) (w : Bool)
    (hg : good_level c) : good_level (stepLast c sr sw a w).1 := by
  unfold stepLast
  dsimp only
  exact good_level_applySink _ _ _ _ (good_level_access _ _ _ hg)

lemma good_level_foldl_stepLast (ops : List (Nat × Bool)) (c : Cache)
    (sr sw : Nat) (hg : good_level c) :
    good_level ((ops.foldl
      (fun acc op => stepLast acc.1 acc.2.1 acc.2.2 op.1 op.2)
      (c, sr, sw)).1) := by
  induction ops generalizing c sr sw with
  | nil => exact hg
  | cons op rest ih =>
    rw [List.foldl_cons]
    exact ih _ _ _ (good_level_stepLast c sr sw op.1 op.2 hg)

lemma good_level_access_with_stats (c : Cache) (a : Nat) (w : Bool)
    (hg : good_level c) :
    good_level ((c.access_with_stats a w).2.1) := by
  unfold Cache.access_with_stats
  dsimp only
  exact good_level_access c a w hg

lemma good_hier_step (h : Hier) (a : Nat) (w : Bool)
    (hg1 : good_level h.l1) (hg2 : good_level h.l2) :
    good_level ((h.step a w).l1) ∧ good_level ((h.step a w).l2) := by
  unfold Hier.step
  dsimp only
  by_cases hl2 : 0 < h.l2.size
  · rw [if_pos hl2]
    exact ⟨good_level_access_with_stats h.l1 a w hg1,
      good_level_foldl_stepLast _ h.l2 h.sinkReads h.sinkWrites hg2⟩
  · rw [if_neg hl2]
    exact ⟨good_level_applySink _ _ _ _
      (good_level_access_with_stats h.l1 a w hg1), hg2⟩

lemma good_runTrace (h : Hier) (tr : List (Nat × Bool))
    (hg1 : good_level h.l1) (hg2 : good_level h.l2) :
    good_level ((runTrace h tr).l1) ∧ good_level ((runTrace h tr).l2) := by
  induction tr generalizing h with
  | nil => exact ⟨hg1, hg2⟩
  | cons op rest ih =>
    rw [runTrace, List.foldl_cons]
    obtain ⟨k1, k2⟩ := good_hier_step h op.1 op.2 hg1 hg2
    exact ih _ k1 k2

lemma good_initCache (bs s a : Nat) (hA : 0 < s → 0 < a) :
    good_level (initCache bs s a) := by
  unfold initCache
  by_cases hs : 0 < s
  · rw [if_pos hs]
    refine ⟨fun _ => hA hs, ?_, ?_, ?_⟩
    · intro st hst
      rw [List.eq_of_mem_replicate hst]
      exact List.length_replicate a CacheBlock.initial
    · intro l hl
      rw [List.eq_of_mem_replicate hl]
    · intro st hst b hb hd
      rw [List.eq_of_mem_replicate hst] at hb
      rw [List.eq_of_mem_replicate hb] at hd
      cases hd
  · rw [if_neg hs]
    refine ⟨?_, ?_, ?_, ?_⟩
    · intro hsz
      exact absurd (Nat.eq_zero_of_not_pos hs) hsz
    · intro st hst
      exact absurd hst (List.not_mem_nil st)
    · intro l hl
      exact absurd hl (List.not_mem_nil l)
    · intro st hst
      exact absurd hst (List.not_mem_nil st)

/-- Claim C7: after any finite trace processed from the initial state, for
every set of every enabled level the recency order is a permutation of the
way indices `{0, ..., associativity - 1}`, and no line is simultaneously
dirty and invalid. -/
theorem claim_C7_invariants_hold (bs l1s l1a l2s l2a : Nat)
    (tr : List (Nat × Bool)) (hA1 : 0 < l1s → 0 < l1a)
    (hA2 : 0 < l2s → 0 < l2a) :
    lru_perm_inv ((runTrace (initHier bs l1s l1a l2s l2a) tr).l1) ∧
    dirty_valid_inv ((runTrace (initHier bs l1s l1a l2s l2a) tr).l1) ∧
    lru_perm_inv ((runTrace (initHier bs l1s l1a l2s l2a) tr).l2) ∧
    dirty_valid_inv ((runTrace (initHier bs l1s l1a l2s l2a) tr).l2) := by
  obtain ⟨g1, g2⟩ := good_runTrace (initHier bs l1s l1a l2s l2a) tr
    (good_initCache bs l1s l1a hA1) (good_initCache bs l2s l2a hA2)
  exact ⟨g1.2.2.1, g1.2.2.2, g2.2.2.1, g2.2.2.2⟩

theorem claim_C7_witness :
    lru_perm_inv ((runTrace (initHier 16 32 2 64 2)
      [(0, false), (16, true), (32, true)]).l1) ∧
    dirty_valid_inv ((runTrace (initHier 16 32 2 64 2)
      [(0, false), (16, true), (32, true)]).l2) :=
  ⟨(claim_C7_invariants_hold 16 32 2 64 2
      [(0, false), (16, true), (32, true)]
      (by decide) (by decide)).1,
   (claim_C7_invariants_hold 16 32 2 64 2
      [(0, false), (16, true), (32, true)]
      (by decide) (by decide)).2.2.2⟩

/-! ### Claim C3: the cold-fill order -/

lemma getD_set_self_poly {α : Type} (ls : List α) (si : Nat) (x d : α)
    (h : si < ls.length) : (ls.set si x).getD si d = x := by
  rw [List.getD_eq_getElem _ _ (by simpa using h),
    List.getElem_set_self (by simpa using h)]

lemma set_replicate_self {α : Type} (n i : Nat) (x : α) :
    (List.replicate n x).set i x = List.replicate n x := by
  apply List.ext_getElem
  · rw [List.length_set]
  · intro m h1 h2
    rw [List.getElem_set]
    split
    · rw [List.getElem_replicate]
    · rfl

lemma getLastD_irrel (l : List Nat) (d d' : Nat) (h : l ≠ []) :
    l.getLastD d = l.getLastD d' := by
  cases l with
  | nil => exact absurd rfl h
  | cons x xs => rw [List.getLastD_cons, List.getLastD_cons]

lemma getLastD_append_right (l1 l2 : List Nat) (d : Nat) (h : l2 ≠ []) :
    (l1 ++ l2).getLastD d = l2.getLastD d := by
  induction l1 generalizing d with
  | nil => rfl
  | cons x xs ih =>
    rw [List.cons_append, List.getLastD_cons, ih x]
    exact getLastD_irrel l2 x d h

lemma getLastD_range (n : Nat) (h : 0 < n) (d : Nat) :
    (List.range n).getLastD d = n - 1 := by
  cases n with
  | zero => exact absurd h (by omega)
  | succ m =>
    rw [List.range_succ, List.getLastD_concat]
    rfl

lemma coldSet_length (a : Nat) (ts : List Nat) : (coldSet a ts).length = a := by
  rw [coldSet, List.length_map, List.length_range]

lemma coldSet_getElem (a : Nat) (ts : List Nat) (w : Nat)
    (h : w < (coldSet a ts).length) :
    (coldSet a ts)[w] =
      if a - ts.length ≤ w then
        ⟨true, false, ts.getD (a - 1 - w) 0⟩
      else CacheBlock.initial := by
  unfold coldSet at h ⊢
  rw [List.getElem_map, List.getElem_range]

lemma coldSet_getD (a : Nat) (ts : List Nat) (w : Nat) (hw : w < a) :
    (coldSet a ts).getD w CacheBlock.initial =
      if a - ts.length ≤ w then
        ⟨true, false, ts.getD (a - 1 - w) 0⟩
      else CacheBlock.initial := by
  rw [List.getD_eq_getElem _ _ (by rw [coldSet_length]; exact hw)]
  exact coldSet_getElem a ts w (by rw [coldSet_length]; exact hw)

lemma coldSet_nil (a : Nat) :
    coldSet a [] = List.replicate a CacheBlock.initial := by
  apply List.ext_getElem
  · rw [coldSet_length, List.length_replicate]
  · intro n h1 h2
    rw [coldSet_getElem a [] n h1, List.getElem_replicate]
    rw [if_neg (by simp at h2 ⊢; omega)]

lemma coldLru_zero (a : Nat) : coldLru a 0 = List.range a := rfl

lemma getLastD_coldLru (a j : Nat) (hj : j < a) :
    (coldLru a j).getLastD 0 = a - j - 1 := by
  rw [coldLru, getLastD_append_right _ _ _
    (by rw [← List.length_pos, List.length_range]; omega)]
  rw [getLastD_range _ (by omega) 0]

lemma coldSet_install (a : Nat) (done : List Nat) (t : Nat)
    (hj : done.length < a) :
    (coldSet a done).set (a - done.length - 1) ⟨true, false, t⟩ =
      coldSet a (done ++ [t]) := by
  apply List.ext_getElem
  · rw [List.length_set, coldSet_length, coldSet_length]
  · intro n h1 h2
    have hn : n < a := by
      rw [List.length_set, coldSet_length] at h1
      exact h1
    rw [List.getElem_set, coldSet_getElem a done n
      (by rw [coldSet_length]; exact hn),
      coldSet_getElem a (done ++ [t]) n (by rw [coldSet_length]; exact hn)]
    rw [List.length_append, List.length_cons, List.length_nil]
    by_cases hcase : a - done.length - 1 = n
    · rw [if_pos hcase, if_pos (by omega)]
      have hidx : a - 1 - n = done.length := by omega
      rw [hidx, List.getD_append_right done [t] 0 done.length (Nat.le_refl _)]
      simp
    · rw [if_neg hcase]
      by_cases hvalid : a - done.length ≤ n
      · rw [if_pos hvalid, if_pos (by omega)]
        have hidx : a - 1 - n < done.length := by omega
        rw [List.getD_append done [t] 0 _ hidx]
      · rw [if_neg hvalid, if_neg (by omega)]

lemma update_lru_coldLru (a j : Nat) (hj : j < a) :
    update_lru (coldLru a j) (a - j - 1) = coldLru a (j + 1) := by
  unfold update_lru coldLru
  rw [List.filter_append]
  have h1 : (List.range' (a - j) j).filter (fun w => w != (a - j - 1)) =
      List.range' (a - j) j := by
    rw [List.filter_eq_self]
    intro x hx
    rw [List.mem_range'_1] at hx
    rw [bne_iff_ne]
    omega
  have h2 : List.range (a - j) = List.range (a - j - 1) ++ [a - j - 1] := by
    conv_lhs => rw [show a - j = (a - j - 1) + 1 from by omega]
    rw [List.range_succ]
  have h3 : (List.range (a - j)).filter (fun w => w != (a - j - 1)) =
      List.range (a - j - 1) := by
    rw [h2, List.filter_append]
    have hl : (List.range (a - j - 1)).filter (fun w => w != (a - j - 1)) =
        List.range (a - j - 1) := by
      rw [List.filter_eq_self]
      intro x hx
      rw [List.mem_range] at hx
      rw [bne_iff_ne]
      omega
    have hr : ([a - j - 1] : List Nat).filter (fun w => w != (a - j - 1))
        = [] := by simp
    rw [hl, hr, List.append_nil]
  rw [h1, h3]
  have h4 : a - (j + 1) = a - j - 1 := by omega
  rw [h4]
  have h5 : List.range' (a - j - 1) (j + 1) =
      (a - j - 1) :: List.range' (a - j) j := by
    have harg : a - j - 1 + 1 = a - j := by omega
    rw [List.range'_succ, harg]
  rw [h5]
  rfl

lemma initCache_enabled (bs s a : Nat) (hs : 0 < s) :
    initCache bs s a =
      { block_size := bs, size := s, associativity := a,
        num_sets := (s / bs) / a, num_blocks := s / bs,
        cache_sets := List.replicate ((s / bs) / a)
          (List.replicate a CacheBlock.initial),
        lru_lists := List.replicate ((s / bs) / a) (List.range a),
        stats := CacheStats.initial } := by
  unfold initCache
  rw [if_pos hs]

lemma coldCache_enabled (bs s a si : Nat) (ts : List Nat) (hs : 0 < s) :
    coldCache bs s a si ts =
      { block_size := bs, size := s, associativity := a,
        num_sets := (s / bs) / a, num_blocks := s / bs,
        cache_sets := (List.replicate ((s / bs) / a)
          (List.replicate a CacheBlock.initial)).set si (coldSet a ts),
        lru_lists := (List.replicate ((s / bs) / a)
          (List.range a)).set si (coldLru a ts.length),
        stats := CacheStats.initial } := by
  unfold coldCache
  rw [initCache_enabled bs s a hs]

lemma coldCache_nil (bs s a si : Nat) (hs : 0 < s) :
    coldCache bs s a si [] = initCache bs s a := by
  rw [coldCache_enabled bs s a si [] hs, initCache_enabled bs s a hs]
  simp only [List.length_nil, coldSet_nil, coldLru_zero]
  rw [set_replicate_self, set_replicate_self]

lemma find_hit_way_coldSet (a : Nat) (done : List Nat) (t : Nat)
    (ht : t ∉ done) : find_hit_way (coldSet a done) t = none := by
  rw [find_hit_way_none_iff]
  intro b hb
  rw [coldSet, List.mem_map] at hb
  obtain ⟨w, hw, rfl⟩ := hb
  have hwa : w < a := List.mem_range.mp hw
  by_cases hcond : a - done.length ≤ w
  · rw [if_pos hcond]
    have hidx : a - 1 - w < done.length := by omega
    have hmem := getD_mem done (a - 1 - w) 0 hidx
    have hne : done.getD (a - 1 - w) 0 ≠ t := fun hc => ht (hc ▸ hmem)
    show ((true : Bool) && (done.getD (a - 1 - w) 0 == t)) = false
    rw [Bool.true_and]
    exact beq_eq_false_iff_ne.mpr hne
  · rw [if_neg hcond]
    rfl

/-- One cold miss on set `si`, with a tag not seen before, installs the
requested block (clean) into way `a - done.length - 1`, emits exactly the
fill read downstream (no writeback, since the invalid victim skips all
eviction work), and moves that way to MRU. -/
lemma cold_access_step (bs s a si t : Nat) (done : List Nat)
    (hbs : 0 < bs) (hs : 0 < s) (hsi : si < (s / bs) / a)
    (hj : done.length < a) (ht : t ∉ done) :
    (coldCache bs s a si done).access (reconstruct bs ((s / bs) / a) t si)
        false =
      (false, coldCache bs s a si (done ++ [t]),
       [(reconstruct bs ((s / bs) / a) t si, false)]) := by
  have hd := decompose_reconstruct bs ((s / bs) / a) t si hbs hsi
  have hns : ((List.replicate ((s / bs) / a)
      (List.replicate a CacheBlock.initial)).length) = (s / bs) / a :=
    List.length_replicate _ _
  have hnl : ((List.replicate ((s / bs) / a) (List.range a)).length) =
      (s / bs) / a := List.length_replicate _ _
  rw [coldCache_enabled bs s a si done hs,
    coldCache_enabled bs s a si (done ++ [t]) hs]
  rw [access_miss_eq _ _ false (by dsimp only; omega)
    (by
      dsimp only
      rw [hd]
      dsimp only
      rw [getD_set_self_poly _ si _ [] (by rw [hns]; exact hsi)]
      exact find_hit_way_coldSet a done t ht)]
  dsimp only
  rw [hd]
  dsimp only
  unfold Cache.insert_block setBlock
  dsimp only
  rw [getD_set_self_poly _ si (coldLru a done.length) [] (by rw [hnl]; exact hsi)]
  rw [getD_set_self_poly _ si (coldSet a done) [] (by rw [hns]; exact hsi)]
  unfold get_lru_victim
  rw [getLastD_coldLru a done.length hj]
  rw [coldSet_getD a done (a - done.length - 1) (by omega)]
  rw [if_neg (by omega : ¬ (a - done.length ≤ a - done.length - 1))]
  rw [if_neg (show ¬ ((CacheBlock.initial.valid &&
    CacheBlock.initial.dirty) = true) from by decide)]
  rw [if_neg (show ¬ (CacheBlock.initial.valid = true) from by decide)]
  rw [getD_set_self_poly _ si (coldSet a done) [] (by rw [hns]; exact hsi)]
  rw [List.set_set, coldSet_install a done t hj]
  rw [update_lru_coldLru a done.length hj, List.set_set]
  rw [List.nil_append]
  rw [show (done ++ [t]).length = done.length + 1 from by
    rw [List.length_append, List.length_singleton]]

lemma runLevelOps_go (c : Cache) (tr : List (Nat × Bool))
    (acc : List (Nat × Bool)) :
    tr.foldl (fun acc op =>
        let r := acc.1.access op.1 op.2
        (r.2.1, acc.2 ++ r.2.2)) (c, acc) =
      ((runLevelOps c tr).1, acc ++ (runLevelOps c tr).2) := by
  induction tr generalizing c acc with
  | nil => simp [runLevelOps]
  | cons op rest ih =>
    rw [List.foldl_cons]
    dsimp only
    rw [ih]
    have hR : runLevelOps c (op :: rest) =
        ((runLevelOps ((c.access op.1 op.2).2.1) rest).1,
         (c.access op.1 op.2).2.2 ++
           (runLevelOps ((c.access op.1 op.2).2.1) rest).2) := by
      show List.foldl _
        ((c.access op.1 op.2).2.1, [] ++ (c.access op.1 op.2).2.2) rest = _
      rw [ih, List.nil_append]
    rw [hR]
    dsimp only
    rw [List.append_assoc]

lemma runLevelOps_cons (c : Cache) (op : Nat × Bool)
    (tr : List (Nat × Bool)) :
    runLevelOps c (op :: tr) =
      ((runLevelOps ((c.access op.1 op.2).2.1) tr).1,
       (c.access op.1 op.2).2.2 ++
         (runLevelOps ((c.access op.1 op.2).2.1) tr).2) := by
  show List.foldl _
    ((c.access op.1 op.2).2.1, [] ++ (c.access op.1 op.2).2.2) tr = _
  rw [runLevelOps_go, List.nil_append]

/-- Cold fills, driven from any prefix `done`: the remaining distinct tags
fill the remaining ways and the only downstream requests are their fill
reads, in order. -/
lemma cold_fills_aux (bs s a si : Nat) (hbs : 0 < bs) (hs : 0 < s)
    (hsi : si < (s / bs) / a) :
    ∀ (rest done : List Nat), (done ++ rest).Nodup →
      done.length + rest.length ≤ a →
      runLevelOps (coldCache bs s a si done)
          (rest.map fun t => (reconstruct bs ((s / bs) / a) t si, false)) =
        (coldCache bs s a si (done ++ rest),
         rest.map fun t => (reconstruct bs ((s / bs) / a) t si, false)) := by
  intro rest
  induction rest with
  | nil =>
    intro done hnd hlen
    simp only [List.map_nil, List.append_nil]
    rfl
  | cons t rest' ih =>
    intro done hnd hlen
    simp only [List.length_cons] at hlen
    have ht : t ∉ done := fun hin =>
      (List.disjoint_of_nodup_append hnd) hin (List.mem_cons_self t rest')
    have hstep := cold_access_step bs s a si t done hbs hs hsi
      (by omega) ht
    rw [List.map_cons, runLevelOps_cons, hstep]
    dsimp only
    have hnd' : ((done ++ [t]) ++ rest').Nodup := by
      rw [List.append_assoc]
      exact hnd
    have hlen' : (done ++ [t]).length + rest'.length ≤ a := by
      rw [List.length_append, List.length_singleton]
      omega
    rw [ih (done ++ [t]) hnd' hlen']
    dsimp only
    rw [List.append_assoc]
    rfl

/-- Claim C3 counterexample: with B=16, L1 of 32 bytes and 2 ways (a
single set) and no L2, the first cold miss installs into way 1, not
way 0 — way 0 is still invalid afterwards while way 1 holds the block,
contradicting "misses install into way 0 first, then way 1". -/
theorem claim_C3_counterexample :
    ((runTrace (initHier 16 32 2 0 0) [(0, false)]).l1.block_at 0 0).valid
        = false ∧
    ((runTrace (initHier 16 32 2 0 0) [(0, false)]).l1.block_at 0 1).valid
        = true := by
  decide

/-- Claim C3 (amended): for every enabled level, starting from the initial
all-invalid state, successive misses to the same set (distinct tags, at
most A of them) install blocks into way A-1 first, then way A-2, and so
on in decreasing way-index order until the set is full — after k fills
way `A-1-i` holds the i-th tag and the ways below `A-k` are still invalid
— and eviction work is skipped on every such fill: the invalid victims
produce no writeback, the downstream requests being exactly the fill
reads in trace order. -/
theorem claim_C3_cold_fills_descending (bs s a si : Nat) (ts : List Nat)
    (hbs : 0 < bs) (hs : 0 < s) (hsi : si < (s / bs) / a)
    (hnd : ts.Nodup) (hlen : ts.length ≤ a) :
    (runLevelOps (initCache bs s a)
        (ts.map fun t => (reconstruct bs ((s / bs) / a) t si, false)) =
      (coldCache bs s a si ts,
       ts.map fun t => (reconstruct bs ((s / bs) / a) t si, false))) ∧
    (∀ w, w < a →
      (coldCache bs s a si ts).block_at si w =
        (if a - ts.length ≤ w then
          ⟨true, false, ts.getD (a - 1 - w) 0⟩
        else CacheBlock.initial)) := by
  constructor
  · have haux := cold_fills_aux bs s a si hbs hs hsi ts []
      (by simpa using hnd) (by simpa using hlen)
    rw [coldCache_nil bs s a si hs] at haux
    simpa using haux
  · intro w hw
    rw [Cache.block_at, Cache.set_at, coldCache_enabled bs s a si ts hs]
    dsimp only
    rw [getD_set_self_poly _ si _ []
      (by rw [List.length_replicate]; exact hsi)]
    exact coldSet_getD a ts w hw

theorem claim_C3_witness :
    (coldCache 16 64 4 0 [5, 9]).block_at 0 3 = ⟨true, false, 5⟩ ∧
    (coldCache 16 64 4 0 [5, 9]).block_at 0 1 = CacheBlock.initial :=
  ⟨((claim_C3_cold_fills_descending 16 64 4 0 [5, 9] (by decide) (by decide)
      (by decide) (by decide) (by decide)).2 3 (by decide)).trans (by decide),
   ((claim_C3_cold_fills_descending 16 64 4 0 [5, 9] (by decide) (by decide)
      (by decide) (by decide) (by decide)).2 1 (by decide)).trans (by decide)⟩

end CacheSim
